import Mathlib

/-!
The in-memory todo store of shipmate, `src/server.js`.

A shallow embedding of the store functions (`addTodo`, `updateTodo`,
`clearCompleted`, `resetTodos`) and of the two request handlers that can
reject input (`POST /api/todos`, `PUT /api/todos/:id`).

Modelling decisions.

* The module-level variables `todos` and `nextId` become an explicit `Store`
  that every function receives and hands back.  A function that can throw
  returns `Except JsError α × Store`: the store component is what the
  variables hold when the call ends, whether it returned or threw.
* Todo objects are mutated in place in the source; here the collection is a
  list of records and the mutation of the object found by `find` is the
  replacement of that list position.
* Ids and the counter are JavaScript numbers that only ever hold small
  positive integers; they are natural numbers here (exact as long as the
  counter stays below 2^53).
* Arguments that come from a caller or from JSON are `JsValue`s, so that the
  `typeof` tests and the truthiness test of the source can be evaluated on
  values of every type.
-/

namespace Shipmate

/-! ## JavaScript values -/

/-- Values a caller or a JSON body can supply.  `num` is a number with an
integer value (`0` also stands for `-0`), `nonInt` a finite number that is not
an integer (only its floor is kept), `inf` an infinity. -/
inductive JsValue where
  | undefined : JsValue
  | null : JsValue
  | bool (b : Bool) : JsValue
  | nan : JsValue
  | num (i : Int) : JsValue
  | nonInt (floor : Int) : JsValue
  | inf (negative : Bool) : JsValue
  | str (s : String) : JsValue
  | arr (items : List JsValue) : JsValue
  | obj (fields : List (String × JsValue)) : JsValue

/-- Exceptions: `error` is `new Error(msg)`, `typeError` the engine's
`TypeError`. -/
inductive JsError where
  | error (msg : String) : JsError
  | typeError (msg : String) : JsError
  deriving DecidableEq, Repr

/-- The `message` property of an exception (`err.message`). -/
def JsError.message : JsError → String
  | .error m => m
  | .typeError m => m

/-- The `typeof` operator. -/
def JsValue.typeof : JsValue → String
  | .undefined => "undefined"
  | .null => "object"
  | .bool _ => "boolean"
  | .nan => "number"
  | .num _ => "number"
  | .nonInt _ => "number"
  | .inf _ => "number"
  | .str _ => "string"
  | .arr _ => "object"
  | .obj _ => "object"

/-- Truthiness (`ToBoolean`): `undefined`, `null`, `false`, `0`, `NaN` and the
empty string are falsy. -/
def JsValue.truthy : JsValue → Bool
  | .undefined => false
  | .null => false
  | .bool b => b
  | .nan => false
  | .num i => i != 0
  | .nonInt _ => true
  | .inf _ => true
  | .str s => s.data != []
  | .arr _ => true
  | .obj _ => true

/-- Own-property lookup in a field list; the first binding of a key counts. -/
def lookupField (key : String) : List (String × JsValue) → JsValue
  | [] => .undefined
  | (k, v) :: rest => if k = key then v else lookupField key rest

/-- Value of `v.key` for a `v` on which property access does not throw, and
for a key that no built-in prototype defines (`text`, `done`): a plain
object yields its own field, anything else `undefined`. -/
def JsValue.lookup (v : JsValue) (key : String) : JsValue :=
  match v with
  | .obj fields => lookupField key fields
  | _ => .undefined

/-- Whether a value is `undefined` or `null`. -/
def JsValue.nullish : JsValue → Bool
  | .undefined => true
  | .null => true
  | _ => false

/-- Message of the `TypeError` raised by a property read on `undefined` or
`null` (the wording is the engine's; only its non-emptiness is used). -/
def readErrorMessage (v : JsValue) (key : String) : String :=
  "Cannot read properties of " ++
    (match v with
     | .null => "null"
     | _ => "undefined") ++ " (reading " ++ key ++ ")"

/-- Property read `v.key`: throws a `TypeError` on `undefined` and `null`. -/
def JsValue.getProp (v : JsValue) (key : String) : Except JsError JsValue :=
  if v.nullish then .error (.typeError (readErrorMessage v key))
  else .ok (v.lookup key)

/-! ## Strings: `trim` and `parseInt` -/

/-- Code points that `String.prototype.trim` and `parseInt` strip: the
ECMAScript `WhiteSpace` and `LineTerminator` productions. -/
def isJsWhiteSpace (c : Char) : Bool :=
  let n := c.toNat
  n = 0x09 || n = 0x0A || n = 0x0B || n = 0x0C || n = 0x0D || n = 0x20 ||
  n = 0xA0 || n = 0x1680 || (0x2000 ≤ n && n ≤ 0x200A) || n = 0x2028 ||
  n = 0x2029 || n = 0x202F || n = 0x205F || n = 0x3000 || n = 0xFEFF

/-- Trimming of a character list: leading, then trailing white space. -/
def trimChars (cs : List Char) : List Char :=
  ((cs.dropWhile isJsWhiteSpace).reverse.dropWhile isJsWhiteSpace).reverse

/-- The method `String.prototype.trim`. -/
def jsTrim (s : String) : String := ⟨trimChars s.data⟩

/-- Value of a run of decimal digits, most significant first. -/
def digitsValue (ds : List Char) : Nat :=
  ds.foldl (fun acc d => 10 * acc + (d.toNat - 48)) 0

/-- The call `parseInt(s, 10)`: skips leading white space, reads an optional
sign and the longest run of decimal digits; `NaN` when there is no digit. -/
def parseInt10 (s : String) : JsValue :=
  let cs := s.data.dropWhile isJsWhiteSpace
  let signed : Bool × List Char :=
    match cs with
    | '-' :: rest => (true, rest)
    | '+' :: rest => (false, rest)
    | _ => (false, cs)
  let ds := signed.2.takeWhile Char.isDigit
  if ds = [] then .nan
  else if signed.1 then .num (-(digitsValue ds : Int))
  else .num (digitsValue ds : Int)

/-! ## The store -/

/-- A todo item: `{ id, text, done }`. -/
structure Todo where
  id : Nat
  text : String
  done : Bool
  deriving DecidableEq, Repr

/-- The module state: `let todos = []` and `let nextId = 1`. -/
structure Store where
  todos : List Todo
  nextId : Nat
  deriving DecidableEq, Repr

/-- State at module load. -/
def Store.initial : Store := ⟨[], 1⟩

/-- The function `getAllTodos`. -/
def getAllTodos (s : Store) : List Todo := s.todos

/-- The exception `new Error('Text is required')`. -/
def textRequired : JsError := .error "Text is required"

/-- The function `addTodo(text)`. -/
def addTodo (text : JsValue) (s : Store) : Except JsError Todo × Store :=
  if !text.truthy || text.typeof != "string" then (.error textRequired, s)
  else
    match text with
    | .str t =>
      if jsTrim t = "" then (.error textRequired, s)
      else
        let todo : Todo := ⟨s.nextId, jsTrim t, false⟩
        (.ok todo, ⟨s.todos ++ [todo], s.nextId + 1⟩)
    | _ => (.error textRequired, s)

/-- The comparison `t.id === id` for a stored (numeric) id and any value. -/
def idMatches (id : JsValue) (t : Todo) : Bool :=
  match id with
  | .num i => (t.id : Int) = i
  | _ => false

/-- In-place mutation of the first element that satisfies `p`. -/
def mutateFirst (p : Todo → Bool) (f : Todo → Todo) : List Todo → List Todo
  | [] => []
  | t :: rest => if p t then f t :: rest else t :: mutateFirst p f rest

/-- The assignment `todo.text = updates.text.trim()` guarded by
`typeof updates.text === 'string'`. -/
def applyText (v : JsValue) (t : Todo) : Todo :=
  match v with
  | .str x => { t with text := jsTrim x }
  | _ => t

/-- The assignment `todo.done = updates.done` guarded by
`typeof updates.done === 'boolean'`. -/
def applyDone (v : JsValue) (t : Todo) : Todo :=
  match v with
  | .bool b => { t with done := b }
  | _ => t

/-- The function `updateTodo(id, updates)`; `none` is the `null` result. -/
def updateTodo (id updates : JsValue) (s : Store) :
    Except JsError (Option Todo) × Store :=
  match s.todos.find? (idMatches id) with
  | none => (.ok none, s)
  | some todo =>
    match updates.getProp "text" with
    | .error e => (.error e, s)
    | .ok vt =>
      let s1 : Store := ⟨mutateFirst (idMatches id) (applyText vt) s.todos, s.nextId⟩
      match updates.getProp "done" with
      | .error e => (.error e, s1)
      | .ok vd =>
        (.ok (some (applyDone vd (applyText vt todo))),
          ⟨mutateFirst (idMatches id) (applyDone vd) s1.todos, s1.nextId⟩)

/-- The function `clearCompleted()`. -/
def clearCompleted (s : Store) : List Todo × Store :=
  let kept := s.todos.filter (fun t => !t.done)
  (kept, ⟨kept, s.nextId⟩)

/-- The function `resetTodos()`. -/
def resetTodos (_s : Store) : Store := ⟨[], 1⟩

/-! ## Request handlers -/

/-- JSON body of a response. -/
inductive ResBody where
  | todo (t : Todo) : ResBody
  | todos (l : List Todo) : ResBody
  | error (msg : String) : ResBody
  deriving DecidableEq, Repr

/-- A response: status code and JSON body. -/
structure Response where
  status : Nat
  body : ResBody
  deriving DecidableEq, Repr

/-- Handler of `POST /api/todos`, given `req.body`.  The whole body of the
handler is inside `try`, so the read `req.body.text` is caught as well.  An
`error` result would be an exception that leaves the handler. -/
def postTodos (reqBody : JsValue) (s : Store) : Except JsError Response × Store :=
  match reqBody.getProp "text" with
  | .error e => (.ok ⟨400, .error e.message⟩, s)
  | .ok text =>
    match addTodo text s with
    | (.ok todo, s1) => (.ok ⟨201, .todo todo⟩, s1)
    | (.error e, s1) => (.ok ⟨400, .error e.message⟩, s1)

/-- Handler of `PUT /api/todos/:id`, given `req.params.id` and `req.body`.
There is no `try`: an exception of `updateTodo` leaves the handler. -/
def putTodo (idParam : String) (reqBody : JsValue) (s : Store) :
    Except JsError Response × Store :=
  match updateTodo (parseInt10 idParam) reqBody s with
  | (.error e, s1) => (.error e, s1)
  | (.ok none, s1) => (.ok ⟨404, .error "Todo not found"⟩, s1)
  | (.ok (some todo), s1) => (.ok ⟨200, .todo todo⟩, s1)

/-- Handler of `DELETE /api/todos/completed`. -/
def deleteCompleted (s : Store) : Response × Store :=
  let r := clearCompleted s
  (⟨200, .todos r.1⟩, r.2)

/-! ## Call sequences -/

/-- A call of one of the three store operations the API reaches. -/
inductive Op where
  | add (text : JsValue) : Op
  | update (id updates : JsValue) : Op
  | clear : Op

/-- A call of a store operation or of the test hook `resetTodos`. -/
inductive Call where
  | op (o : Op) : Call
  | reset : Call

/-- Store after one operation (kept also when the operation throws). -/
def Op.step (s : Store) : Op → Store
  | .add text => (addTodo text s).2
  | .update id updates => (updateTodo id updates s).2
  | .clear => (clearCompleted s).2

/-- Store after one call. -/
def Call.step (s : Store) : Call → Store
  | .op o => o.step s
  | .reset => resetTodos s

/-- Store after a sequence of operations. -/
def runOps (ops : List Op) (s : Store) : Store := ops.foldl Op.step s

/-- Store after a sequence of calls. -/
def runCalls (calls : List Call) (s : Store) : Store := calls.foldl Call.step s

/-- The todos returned by the successful `addTodo` calls of a sequence run
from `s`, in call order. -/
def addResults : List Op → Store → List Todo
  | [], _ => []
  | .add text :: rest, s =>
    match (addTodo text s).1 with
    | .ok todo => todo :: addResults rest (Op.step s (.add text))
    | .error _ => addResults rest (Op.step s (.add text))
  | op :: rest, s => addResults rest (Op.step s op)

/-- A string that is empty or consists of white space only. -/
def isBlank (s : String) : Bool := s.data.all isJsWhiteSpace

/-- An operation that is not an update carrying a `text` string which trims
to the empty string. -/
def Op.keepsText : Op → Prop
  | .update _ updates => ∀ x, updates.lookup "text" = .str x → jsTrim x ≠ ""
  | _ => True

/-! ## Specification vocabulary -/

/-- The inputs `addTodo` is specified to reject: a missing value, a value that
is not a string, a string that trims to the empty string. -/
def textRejected (text : JsValue) : Prop :=
  text = .undefined ∨ (∀ t, text ≠ .str t) ∨ ∃ t, text = .str t ∧ jsTrim t = ""

/-- The todo `updateTodo` leaves in place of `t0`: text and done taken from
the values of `updates.text` and `updates.done` when they have the right
type. -/
def updatedTodo (vt vd : JsValue) (t0 : Todo) : Todo :=
  { id := t0.id
    text := match vt with
      | .str x => jsTrim x
      | _ => t0.text
    done := match vd with
      | .bool b => b
      | _ => t0.done }

/-- Invariant behind id uniqueness: ids are pairwise distinct and all below
the counter. -/
def IdsFresh (s : Store) : Prop :=
  (s.todos.map (·.id)).Nodup ∧ ∀ t ∈ s.todos, t.id < s.nextId

/-! ## `addTodo` -/

theorem jsTrim_eq_empty_iff (t : String) : jsTrim t = "" ↔ trimChars t.data = [] := by
  constructor
  · intro h
    have := congrArg String.data h
    simpa [jsTrim] using this
  · intro h
    simp [jsTrim, h]

theorem jsTrim_of_data_nil (t : String) (h : t.data = []) : jsTrim t = "" := by
  rw [jsTrim_eq_empty_iff, h]; rfl

theorem addTodo_str (t : String) (s : Store) :
    addTodo (.str t) s =
      if jsTrim t = "" then (.error textRequired, s)
      else (.ok ⟨s.nextId, jsTrim t, false⟩,
            ⟨s.todos ++ [⟨s.nextId, jsTrim t, false⟩], s.nextId + 1⟩) := by
  unfold addTodo
  by_cases hd : t.data = []
  · simp [JsValue.truthy, JsValue.typeof, hd, jsTrim_of_data_nil t hd]
  · simp [JsValue.truthy, JsValue.typeof, hd]

theorem addTodo_not_str (text : JsValue) (s : Store) (h : ∀ t, text ≠ .str t) :
    addTodo text s = (.error textRequired, s) := by
  unfold addTodo
  cases text <;> simp [JsValue.truthy, JsValue.typeof] at h ⊢


theorem textRejected_iff (text : JsValue) :
    textRejected text ↔ ∀ t, text = .str t → jsTrim t = "" := by
  unfold textRejected
  constructor
  · rintro (h | h | ⟨t, h, ht⟩) u hu
    · rw [h] at hu; cases hu
    · exact absurd hu (h u)
    · rw [h] at hu; cases hu; exact ht
  · intro h
    cases text <;> simp at h ⊢
    exact h

/-- C1: `addTodo(text)` throws exactly when `text` is missing, not a string or
a string that trims to empty; the exception is `Error('Text is required')`,
the collection and the counter are then unchanged, and `POST /api/todos`
answers such a text with status 400 and that (non-empty) message, leaving the
store unchanged. -/
theorem addTodo_fails_iff_rejected (s : Store) (text : JsValue) :
    ((∃ e, (addTodo text s).1 = .error e) ↔ textRejected text) ∧
    (∀ e, (addTodo text s).1 = .error e → e = textRequired ∧ (addTodo text s).2 = s) ∧
    (∀ reqBody, reqBody.getProp "text" = .ok text →
      ((postTodos reqBody s).1 = .ok ⟨400, .error "Text is required"⟩ ↔ textRejected text) ∧
      ((∃ msg, (postTodos reqBody s).1 = .ok ⟨400, .error msg⟩) ↔ textRejected text) ∧
      (textRejected text → (postTodos reqBody s).2 = s)) ∧
    "Text is required" ≠ "" := by
  have key : (textRejected text ∧ addTodo text s = (.error textRequired, s)) ∨
      (¬ textRejected text ∧ ∃ todo s1, addTodo text s = (.ok todo, s1)) := by
    by_cases hr : textRejected text
    · left
      refine ⟨hr, ?_⟩
      rw [textRejected_iff] at hr
      cases text with
      | str t => rw [addTodo_str]; simp [hr t rfl]
      | _ => exact addTodo_not_str _ _ (by simp)
    · right
      refine ⟨hr, ?_⟩
      rw [textRejected_iff] at hr
      push_neg at hr
      obtain ⟨t, rfl, ht⟩ := hr
      rw [addTodo_str]; simp [ht]
  refine ⟨?_, ?_, ?_, by decide⟩
  · rcases key with ⟨hr, h⟩ | ⟨hr, todo, s1, h⟩
    · simp [h, hr]
    · simp [h, hr]
  · intro e he
    rcases key with ⟨_, h⟩ | ⟨_, todo, s1, h⟩
    · rw [h] at he ⊢
      simp at he
      exact ⟨he.symm, rfl⟩
    · rw [h] at he; simp at he
  · intro reqBody hb
    rcases key with ⟨hr, h⟩ | ⟨hr, todo, s1, h⟩
    · simp [postTodos, hb, h, hr, textRequired, JsError.message]
    · simp [postTodos, hb, h, hr]

/-- C2: for a string whose trimmed value is non-empty, `addTodo` returns
`{id: n, text: trim(text), done: false}` where `n` is the counter, appends
exactly that todo at the end of the collection and sets the counter to
`n + 1`. -/
theorem addTodo_success (s : Store) (t : String) (h : jsTrim t ≠ "") :
    addTodo (.str t) s =
      (.ok ⟨s.nextId, jsTrim t, false⟩,
        ⟨s.todos ++ [⟨s.nextId, jsTrim t, false⟩], s.nextId + 1⟩) := by
  rw [addTodo_str]; simp [h]

theorem addTodo_success_witness :
    jsTrim "  Buy groceries " ≠ "" ∧
    addTodo (.str "  Buy groceries ") ⟨[⟨1, "a", true⟩], 2⟩ =
      (.ok ⟨2, "Buy groceries", false⟩,
        ⟨[⟨1, "a", true⟩, ⟨2, "Buy groceries", false⟩], 3⟩) :=
  ⟨by decide, addTodo_success ⟨[⟨1, "a", true⟩], 2⟩ "  Buy groceries " (by decide)⟩

/-! ## `updateTodo` -/

theorem idMatches_iff (id : JsValue) (t : Todo) :
    idMatches id t = true ↔ id = .num (t.id : Int) := by
  cases id <;> simp [idMatches]
  exact eq_comm

theorem idMatches_false_iff (id : JsValue) (t : Todo) :
    idMatches id t = false ↔ id ≠ .num (t.id : Int) := by
  rw [Ne, ← idMatches_iff]; simp

theorem mutateFirst_append (p : Todo → Bool) (f : Todo → Todo)
    (pre post : List Todo) (t0 : Todo)
    (hpre : ∀ t ∈ pre, p t = false) (h0 : p t0 = true) :
    mutateFirst p f (pre ++ t0 :: post) = pre ++ f t0 :: post := by
  induction pre with
  | nil => simp [mutateFirst, h0]
  | cons a pre ih =>
    have ha : p a = false := hpre a (by simp)
    have := ih (fun t ht => hpre t (by simp [ht]))
    simp [mutateFirst, ha, this]

theorem find_split (p : Todo → Bool) (l : List Todo) (t0 : Todo)
    (h : l.find? p = some t0) :
    ∃ pre post, l = pre ++ t0 :: post ∧ (∀ t ∈ pre, p t = false) ∧ p t0 = true := by
  induction l with
  | nil => simp at h
  | cons a l ih =>
    by_cases ha : p a = true
    · simp [List.find?, ha] at h
      subst h
      exact ⟨[], l, rfl, by simp, ha⟩
    · simp [List.find?, ha] at h
      obtain ⟨pre, post, hl, hpre, h0⟩ := ih h
      refine ⟨a :: pre, post, by simp [hl], ?_, h0⟩
      intro t ht
      rcases List.mem_cons.1 ht with rfl | ht
      · simpa using ha
      · exact hpre t ht

theorem find_none_iff (p : Todo → Bool) (l : List Todo) :
    l.find? p = none ↔ ∀ t ∈ l, p t = false := by
  simp [List.find?_eq_none]

theorem find_of_split (p : Todo → Bool) (pre post : List Todo) (t0 : Todo)
    (hpre : ∀ t ∈ pre, p t = false) (h0 : p t0 = true) :
    (pre ++ t0 :: post).find? p = some t0 := by
  induction pre with
  | nil => simp [List.find?, h0]
  | cons a pre ih =>
    have ha : p a = false := hpre a (by simp)
    have := ih (fun t ht => hpre t (by simp [ht]))
    simpa [List.find?, ha] using this

theorem idMatches_applyText (id v : JsValue) (t : Todo) :
    idMatches id (applyText v t) = idMatches id t := by
  cases v <;> cases id <;> simp [applyText, idMatches]

theorem applyDone_applyText (vt vd : JsValue) (t0 : Todo) :
    applyDone vd (applyText vt t0) = updatedTodo vt vd t0 := by
  cases vt <;> cases vd <;> rfl

theorem updateTodo_split (s : Store) (id updates : JsValue) (pre post : List Todo)
    (t0 : Todo) (hn : updates.nullish = false) (hs : s.todos = pre ++ t0 :: post)
    (hpre : ∀ t ∈ pre, idMatches id t = false) (h0 : idMatches id t0 = true) :
    updateTodo id updates s =
      (.ok (some (updatedTodo (updates.lookup "text") (updates.lookup "done") t0)),
        ⟨pre ++ updatedTodo (updates.lookup "text") (updates.lookup "done") t0 :: post,
          s.nextId⟩) := by
  have hf := find_of_split (idMatches id) pre post t0 hpre h0
  have h1 : idMatches id (applyText (updates.lookup "text") t0) = true := by
    rw [idMatches_applyText]; exact h0
  simp only [updateTodo, hs, hf, JsValue.getProp, hn, Bool.false_eq_true, if_false]
  rw [mutateFirst_append _ _ pre post t0 hpre h0,
    mutateFirst_append _ _ pre post _ hpre h1, applyDone_applyText]

theorem jsTrim_of_isBlank (x : String) (h : isBlank x = true) : jsTrim x = "" := by
  rw [jsTrim_eq_empty_iff]
  have hd : x.data.dropWhile isJsWhiteSpace = [] := by
    rw [List.dropWhile_eq_nil_iff]
    intro c hc
    exact List.all_eq_true.1 h c hc
  simp [trimChars, hd]

/-- C3 (as stated, refuted): with `undefined` as `updates` and an id that is
present, `updateTodo` does not return the todo: the read `updates.text`
throws a `TypeError`. -/
theorem updateTodo_undefined_updates_throws :
    (updateTodo (.num 1) .undefined ⟨[⟨1, "a", false⟩], 2⟩).1 =
        .error (.typeError "Cannot read properties of undefined (reading text)") ∧
    ¬ ∃ t, (updateTodo (.num 1) .undefined ⟨[⟨1, "a", false⟩], 2⟩).1 = .ok (some t) := by
  constructor
  · rfl
  · rintro ⟨t, h⟩
    have h2 : (updateTodo (.num 1) .undefined ⟨[⟨1, "a", false⟩], 2⟩).1 =
        .error (.typeError "Cannot read properties of undefined (reading text)") := rfl
    rw [h2] at h
    cases h

/-- C3 (amended): for an id present in the collection and `updates` other
than `undefined` and `null`, `updateTodo` returns the first todo with that id
after the change and replaces it in place: text becomes the trimmed
`updates.text` when that is a string (no non-empty check) and is kept
otherwise, done becomes `updates.done` when that is a boolean and is kept
otherwise; the id, every other todo, the order and length of the collection
and the counter are unchanged. -/
theorem updateTodo_found (s : Store) (id updates : JsValue)
    (hn : updates ≠ .undefined ∧ updates ≠ .null)
    (hp : ∃ t ∈ s.todos, id = .num (t.id : Int)) :
    ∃ pre t0 post t1,
      s.todos = pre ++ t0 :: post ∧
      (∀ t ∈ pre, id ≠ .num (t.id : Int)) ∧ id = .num (t0.id : Int) ∧
      updateTodo id updates s = (.ok (some t1), ⟨pre ++ t1 :: post, s.nextId⟩) ∧
      t1.id = t0.id ∧
      (∀ x, updates.lookup "text" = .str x → t1.text = jsTrim x) ∧
      (∀ x, updates.lookup "text" = .str x → isBlank x = true → t1.text = "") ∧
      ((∀ x, updates.lookup "text" ≠ .str x) → t1.text = t0.text) ∧
      (∀ b, updates.lookup "done" = .bool b → t1.done = b) ∧
      ((∀ b, updates.lookup "done" ≠ .bool b) → t1.done = t0.done) := by
  have hnull : updates.nullish = false := by
    cases updates <;> simp [JsValue.nullish] at hn ⊢
  obtain ⟨t, ht, hid⟩ := hp
  cases hfind : s.todos.find? (idMatches id) with
  | none =>
    rw [find_none_iff] at hfind
    have := hfind t ht
    rw [idMatches_false_iff] at this
    exact absurd hid this
  | some t0 =>
    obtain ⟨pre, post, hs, hpre, h0⟩ := find_split _ _ _ hfind
    refine ⟨pre, t0, post, updatedTodo (updates.lookup "text") (updates.lookup "done") t0,
      hs, ?_, (idMatches_iff id t0).1 h0,
      updateTodo_split s id updates pre post t0 hnull hs hpre h0, rfl, ?_, ?_, ?_, ?_, ?_⟩
    · intro u hu
      exact (idMatches_false_iff id u).1 (hpre u hu)
    · intro x hx
      simp [updatedTodo, hx]
    · intro x hx hb
      simp [updatedTodo, hx, jsTrim_of_isBlank x hb]
    · intro hx
      cases hl : updates.lookup "text" <;> simp [updatedTodo, hl]
      exact absurd hl (hx _)
    · intro b hb
      simp [updatedTodo, hb]
    · intro hb
      cases hl : updates.lookup "done" <;> simp [updatedTodo, hl]
      exact absurd hl (hb _)

theorem updateTodo_found_witness :
    ((JsValue.obj [("done", .bool true)] ≠ .undefined ∧
        JsValue.obj [("done", .bool true)] ≠ .null) ∧
      (∃ t ∈ (⟨[⟨1, "Keep", false⟩, ⟨2, "Remove", false⟩], 3⟩ : Store).todos,
        JsValue.num 2 = .num (t.id : Int))) ∧
    ∃ pre t0 post t1,
      (⟨[⟨1, "Keep", false⟩, ⟨2, "Remove", false⟩], 3⟩ : Store).todos = pre ++ t0 :: post ∧
      (∀ t ∈ pre, JsValue.num 2 ≠ .num (t.id : Int)) ∧ JsValue.num 2 = .num (t0.id : Int) ∧
      updateTodo (.num 2) (.obj [("done", .bool true)])
          ⟨[⟨1, "Keep", false⟩, ⟨2, "Remove", false⟩], 3⟩ =
        (.ok (some t1), ⟨pre ++ t1 :: post, 3⟩) ∧
      t1.id = t0.id ∧
      (∀ x, (JsValue.obj [("done", .bool true)]).lookup "text" = .str x → t1.text = jsTrim x) ∧
      (∀ x, (JsValue.obj [("done", .bool true)]).lookup "text" = .str x → isBlank x = true →
        t1.text = "") ∧
      ((∀ x, (JsValue.obj [("done", .bool true)]).lookup "text" ≠ .str x) →
        t1.text = t0.text) ∧
      (∀ b, (JsValue.obj [("done", .bool true)]).lookup "done" = .bool b → t1.done = b) ∧
      ((∀ b, (JsValue.obj [("done", .bool true)]).lookup "done" ≠ .bool b) →
        t1.done = t0.done) :=
  ⟨⟨⟨by simp, by simp⟩, ⟨⟨2, "Remove", false⟩, by simp, rfl⟩⟩,
    updateTodo_found ⟨[⟨1, "Keep", false⟩, ⟨2, "Remove", false⟩], 3⟩ (.num 2)
      (.obj [("done", .bool true)]) ⟨by simp, by simp⟩
      ⟨⟨2, "Remove", false⟩, by simp, rfl⟩⟩

/-- C4: `updateTodo` returns `null` exactly when no todo has the given id, and
then leaves the collection and the counter as they were; `PUT /api/todos/:id`
answers 404 with `{error: 'Todo not found'}` exactly when no todo has the
parsed id, and then leaves the store as it was. -/
theorem updateTodo_notFound_iff (s : Store) (id updates : JsValue) :
    ((updateTodo id updates s).1 = .ok none ↔ ∀ t ∈ s.todos, id ≠ .num (t.id : Int)) ∧
    ((updateTodo id updates s).1 = .ok none → (updateTodo id updates s).2 = s) ∧
    (∀ idParam : String,
      ((putTodo idParam updates s).1 = .ok ⟨404, .error "Todo not found"⟩ ↔
        ∀ t ∈ s.todos, parseInt10 idParam ≠ .num (t.id : Int)) ∧
      ((putTodo idParam updates s).1 = .ok ⟨404, .error "Todo not found"⟩ →
        (putTodo idParam updates s).2 = s)) := by
  have key : ∀ id : JsValue,
      ((∀ t ∈ s.todos, id ≠ .num (t.id : Int)) ∧ updateTodo id updates s = (.ok none, s)) ∨
      ((¬ ∀ t ∈ s.todos, id ≠ .num (t.id : Int)) ∧
        ((∃ e s1, updateTodo id updates s = (.error e, s1)) ∨
         (∃ t1 s1, updateTodo id updates s = (.ok (some t1), s1)))) := by
    intro id
    cases hfind : s.todos.find? (idMatches id) with
    | none =>
      left
      refine ⟨?_, by simp [updateTodo, hfind]⟩
      intro t ht
      exact (idMatches_false_iff id t).1 ((find_none_iff _ _).1 hfind t ht)
    | some t0 =>
      right
      obtain ⟨pre, post, hs, hpre, h0⟩ := find_split _ _ _ hfind
      constructor
      · intro hall
        exact hall t0 (by simp [hs]) ((idMatches_iff id t0).1 h0)
      · by_cases hnull : updates.nullish = true
        · left
          exact ⟨.typeError (readErrorMessage updates "text"), s,
            by simp [updateTodo, hfind, JsValue.getProp, hnull]⟩
        · right
          exact ⟨_, _, updateTodo_split s id updates pre post t0 (by simpa using hnull)
            hs hpre h0⟩
  refine ⟨?_, ?_, ?_⟩
  · rcases key id with ⟨h, e⟩ | ⟨h, ⟨e, s1, e1⟩ | ⟨t1, s1, e1⟩⟩
    · rw [e]; exact ⟨fun _ => h, fun _ => rfl⟩
    · simp [e1, h]
    · simp [e1, h]
  · rcases key id with ⟨h, e⟩ | ⟨h, ⟨e, s1, e1⟩ | ⟨t1, s1, e1⟩⟩
    · simp [e]
    · simp [e1]
    · simp [e1]
  · intro idParam
    rcases key (parseInt10 idParam) with ⟨h, e⟩ | ⟨h, ⟨e, s1, e1⟩ | ⟨t1, s1, e1⟩⟩
    · have hp : putTodo idParam updates s = (.ok ⟨404, .error "Todo not found"⟩, s) := by
        simp [putTodo, e]
      rw [hp]; exact ⟨⟨fun _ => h, fun _ => rfl⟩, fun _ => rfl⟩
    · simp [putTodo, e1, h]
    · simp [putTodo, e1, h]

/-! ## `clearCompleted` -/

/-- C5: `clearCompleted()` stores and returns exactly the todos whose `done`
is false, each unchanged and in their former relative order, and keeps the
counter; when no todo is done, the result and the stored collection are the
former collection. -/
theorem clearCompleted_keeps_active (s : Store) :
    (clearCompleted s).2.todos = (clearCompleted s).1 ∧
    (clearCompleted s).2.nextId = s.nextId ∧
    (clearCompleted s).1 = s.todos.filter (fun t => !t.done) ∧
    (clearCompleted s).1.Sublist s.todos ∧
    (∀ t, t ∈ (clearCompleted s).1 ↔ t ∈ s.todos ∧ t.done = false) ∧
    (∀ t, t.done = false → (clearCompleted s).1.count t = s.todos.count t) ∧
    ((∀ t ∈ s.todos, t.done = false) →
      (clearCompleted s).1 = s.todos ∧ (clearCompleted s).2 = s) := by
  refine ⟨rfl, rfl, rfl, ?_, ?_, ?_, ?_⟩
  · exact List.filter_sublist _
  · intro t
    simp [clearCompleted, List.mem_filter]
  · intro t ht
    simp only [clearCompleted]
    rw [List.count_filter]
    simp [ht]
  · intro h
    have hf : s.todos.filter (fun t => !t.done) = s.todos := by
      rw [List.filter_eq_self]
      intro t ht
      simp [h t ht]
    constructor
    · simp only [clearCompleted]; exact hf
    · simp only [clearCompleted]; rw [hf]

/-- C10: a second `clearCompleted()` in a row returns the same sequence as
the first and leaves the store as the first left it. -/
theorem clearCompleted_idempotent (s : Store) :
    (clearCompleted (clearCompleted s).2).1 = (clearCompleted s).1 ∧
    (clearCompleted (clearCompleted s).2).2 = (clearCompleted s).2 := by
  simp [clearCompleted, List.filter_filter]

/-! ## Reachable stores: unique ids -/

theorem map_id_mutateFirst (p : Todo → Bool) (f : Todo → Todo)
    (hf : ∀ t, (f t).id = t.id) (l : List Todo) :
    (mutateFirst p f l).map (·.id) = l.map (·.id) := by
  induction l with
  | nil => rfl
  | cons a l ih =>
    by_cases ha : p a = true
    · simp [mutateFirst, ha, hf]
    · simp [mutateFirst, ha, ih]

theorem applyText_id (v : JsValue) (t : Todo) : (applyText v t).id = t.id := by
  cases v <;> rfl

theorem applyDone_id (v : JsValue) (t : Todo) : (applyDone v t).id = t.id := by
  cases v <;> rfl

theorem updateTodo_ids (id updates : JsValue) (s : Store) :
    (updateTodo id updates s).2.todos.map (·.id) = s.todos.map (·.id) ∧
    (updateTodo id updates s).2.nextId = s.nextId := by
  unfold updateTodo
  cases s.todos.find? (idMatches id) with
  | none => simp
  | some t0 =>
    cases updates.getProp "text" with
    | error e => simp
    | ok vt =>
      cases updates.getProp "done" with
      | error e => simp [map_id_mutateFirst _ _ (applyText_id vt)]
      | ok vd =>
        simp [map_id_mutateFirst _ _ (applyText_id vt),
          map_id_mutateFirst _ _ (applyDone_id vd)]

theorem addTodo_cases (text : JsValue) (s : Store) :
    addTodo text s = (.error textRequired, s) ∨
    ∃ t, text = .str t ∧ jsTrim t ≠ "" ∧
      addTodo text s = (.ok ⟨s.nextId, jsTrim t, false⟩,
        ⟨s.todos ++ [⟨s.nextId, jsTrim t, false⟩], s.nextId + 1⟩) := by
  cases text with
  | str t =>
    by_cases ht : jsTrim t = ""
    · left; rw [addTodo_str]; simp [ht]
    · right; exact ⟨t, rfl, ht, by rw [addTodo_str]; simp [ht]⟩
  | _ => left; exact addTodo_not_str _ _ (by simp)

theorem IdsFresh_opStep (s : Store) (o : Op) (h : IdsFresh s) : IdsFresh (o.step s) := by
  obtain ⟨hnd, hlt⟩ := h
  cases o with
  | add text =>
    rcases addTodo_cases text s with e | ⟨t, _, _, e⟩
    · simp only [Op.step, e]; exact ⟨hnd, hlt⟩
    · simp only [Op.step, e]
      constructor
      · simp only [List.map_append, List.map_cons, List.map_nil]
        rw [List.nodup_append]
        refine ⟨hnd, by simp, ?_⟩
        intro a ha hb
        simp at hb
        obtain ⟨u, hu, rfl⟩ := List.mem_map.1 ha
        have := hlt u hu
        omega
      · intro u hu
        simp at hu
        rcases hu with hu | rfl
        · have := hlt u hu
          show u.id < s.nextId + 1
          omega
        · show s.nextId < s.nextId + 1
          omega
  | update id updates =>
    obtain ⟨hm, hn⟩ := updateTodo_ids id updates s
    simp only [Op.step]
    constructor
    · rw [hm]; exact hnd
    · intro u hu
      have hu1 : u.id ∈ (updateTodo id updates s).2.todos.map (·.id) :=
        List.mem_map.2 ⟨u, hu, rfl⟩
      rw [hm] at hu1
      obtain ⟨w, hw, hwid⟩ := List.mem_map.1 hu1
      have := hlt w hw
      rw [hn]; omega
  | clear =>
    simp only [Op.step, clearCompleted]
    constructor
    · exact hnd.sublist ((List.filter_sublist _).map _)
    · intro u hu
      exact hlt u (List.mem_filter.1 hu).1

theorem IdsFresh_runCalls (calls : List Call) (s : Store) (h : IdsFresh s) :
    IdsFresh (runCalls calls s) := by
  induction calls generalizing s with
  | nil => exact h
  | cons c rest ih =>
    simp only [runCalls, List.foldl_cons]
    apply ih
    cases c with
    | op o => exact IdsFresh_opStep s o h
    | reset => exact ⟨by simp [Call.step, resetTodos], by simp [Call.step, resetTodos]⟩

/-- C6: in every store reachable from the initial store by `addTodo`,
`updateTodo`, `clearCompleted` and `resetTodos` calls with arbitrary
arguments, no two todos of the collection have the same id. -/
theorem reachable_ids_unique (calls : List Call) :
    (runCalls calls Store.initial).todos.Pairwise (fun a b => a.id ≠ b.id) ∧
    ((runCalls calls Store.initial).todos.map (·.id)).Nodup := by
  have h := (IdsFresh_runCalls calls Store.initial
    ⟨by simp [Store.initial], by simp [Store.initial]⟩).1
  refine ⟨?_, h⟩
  rw [List.Nodup, List.pairwise_map] at h
  exact h

/-! ## Reachable stores: texts -/

theorem dropWhile_head_false (p : Char → Bool) (l : List Char) (a : Char) (r : List Char)
    (h : l.dropWhile p = a :: r) : p a = false := by
  induction l with
  | nil => simp at h
  | cons b l ih =>
    by_cases hb : p b = true
    · rw [List.dropWhile_cons_of_pos hb] at h
      exact ih h
    · rw [List.dropWhile_cons_of_neg hb] at h
      cases h
      simpa using hb

theorem trimChars_not_blank (cs : List Char) (h : trimChars cs ≠ []) :
    (trimChars cs).all isJsWhiteSpace = false := by
  unfold trimChars at h ⊢
  cases hd : ((cs.dropWhile isJsWhiteSpace).reverse.dropWhile isJsWhiteSpace) with
  | nil => simp [hd] at h
  | cons a r =>
    have ha := dropWhile_head_false _ _ _ _ hd
    simp [ha]

theorem jsTrim_not_blank (t : String) (h : jsTrim t ≠ "") : isBlank (jsTrim t) = false := by
  have h1 : trimChars t.data ≠ [] := fun e => h ((jsTrim_eq_empty_iff t).2 e)
  exact trimChars_not_blank _ h1

theorem mutateFirst_forall (Q : Todo → Prop) (p : Todo → Bool) (f : Todo → Todo)
    (hf : ∀ t, Q t → Q (f t)) (l : List Todo) (hl : ∀ t ∈ l, Q t) :
    ∀ t ∈ mutateFirst p f l, Q t := by
  induction l with
  | nil => simp [mutateFirst]
  | cons a l ih =>
    have ha : Q a := hl a (by simp)
    have hl1 : ∀ t ∈ l, Q t := fun t ht => hl t (by simp [ht])
    by_cases hp : p a = true
    · intro t ht
      have e : mutateFirst p f (a :: l) = f a :: l := by simp [mutateFirst, hp]
      rw [e] at ht
      rcases List.mem_cons.1 ht with h1 | h1
      · rw [h1]; exact hf a ha
      · exact hl1 t h1
    · intro t ht
      have e : mutateFirst p f (a :: l) = a :: mutateFirst p f l := by
        simp [mutateFirst, hp]
      rw [e] at ht
      rcases List.mem_cons.1 ht with h1 | h1
      · rw [h1]; exact ha
      · exact ih hl1 t h1

theorem applyDone_text (v : JsValue) (t : Todo) : (applyDone v t).text = t.text := by
  cases v <;> rfl

theorem NotBlank_opStep (s : Store) (o : Op) (ho : o.keepsText)
    (h : ∀ t ∈ s.todos, isBlank t.text = false) :
    ∀ t ∈ (o.step s).todos, isBlank t.text = false := by
  cases o with
  | add text =>
    rcases addTodo_cases text s with e | ⟨x, _, hx, e⟩
    · simp only [Op.step, e]; exact h
    · simp only [Op.step, e]
      intro u hu
      rcases List.mem_append.1 hu with hu | hu
      · exact h u hu
      · simp at hu
        subst hu
        exact jsTrim_not_blank x hx
  | update id updates =>
    simp only [Op.step, updateTodo]
    cases s.todos.find? (idMatches id) with
    | none => exact h
    | some t0 =>
      by_cases hn : updates.nullish = true
      · simp only [JsValue.getProp, hn, if_true]; exact h
      · simp only [JsValue.getProp, hn]
        have h1 : ∀ t ∈ mutateFirst (idMatches id) (applyText (updates.lookup "text")) s.todos,
            isBlank t.text = false := by
          apply mutateFirst_forall (fun t => isBlank t.text = false) _ _ _ _ h
          intro t ht
          cases hl : updates.lookup "text" with
          | str x => exact jsTrim_not_blank x (ho x hl)
          | _ => exact ht
        apply mutateFirst_forall (fun t => isBlank t.text = false) _ _ _ _ h1
        intro t ht
        show isBlank (applyDone _ t).text = false
        rw [applyDone_text]; exact ht
  | clear =>
    intro u hu
    exact h u (List.mem_filter.1 hu).1

/-- C7 (as stated, refuted): after `addTodo('a')` and
`updateTodo(1, {text: '   '})` the collection holds a todo whose text is the
empty string: `updateTodo` has no non-empty check. -/
theorem update_stores_empty_text :
    runOps [.add (.str "a"), .update (.num 1) (.obj [("text", .str "   ")])]
        Store.initial = ⟨[⟨1, "", false⟩], 2⟩ ∧
    ∃ t ∈ (runOps [.add (.str "a"), .update (.num 1) (.obj [("text", .str "   ")])]
        Store.initial).todos, t.text = "" ∧ isBlank t.text = true := by
  have h : runOps [.add (.str "a"), .update (.num 1) (.obj [("text", .str "   ")])]
      Store.initial = ⟨[⟨1, "", false⟩], 2⟩ := by rfl
  refine ⟨h, ⟨1, "", false⟩, ?_, rfl, rfl⟩
  rw [h]; simp

/-- C7 (amended): in every store reachable from the initial store by
`addTodo`, `clearCompleted` and `updateTodo` calls in which no update carries
a `text` string that trims to empty, every todo has a text that is neither
empty nor white space only; the rule is enforced by `addTodo` alone. -/
theorem reachable_text_not_blank (ops : List Op) (h : ∀ o ∈ ops, o.keepsText) :
    ∀ t ∈ (runOps ops Store.initial).todos, t.text ≠ "" ∧ isBlank t.text = false := by
  have key : ∀ (ops : List Op) (s : Store), (∀ o ∈ ops, o.keepsText) →
      (∀ t ∈ s.todos, isBlank t.text = false) →
      ∀ t ∈ (runOps ops s).todos, isBlank t.text = false := by
    intro ops
    induction ops with
    | nil => intro s _ hs; exact hs
    | cons o rest ih =>
      intro s ho hs
      simp only [runOps, List.foldl_cons]
      exact ih (o.step s) (fun o1 h1 => ho o1 (by simp [h1]))
        (NotBlank_opStep s o (ho o (by simp)) hs)
  intro t ht
  have hb := key ops Store.initial h (by simp [Store.initial]) t ht
  refine ⟨?_, hb⟩
  intro he
  rw [he] at hb
  exact absurd hb (by decide)

theorem reachable_text_not_blank_witness :
    (∀ o ∈ [Op.add (.str "  a "), .update (.num 1) (.obj [("text", .str " b ")]), .clear],
      o.keepsText) ∧
    ∀ t ∈ (runOps [Op.add (.str "  a "), .update (.num 1) (.obj [("text", .str " b ")]),
        .clear] Store.initial).todos, t.text ≠ "" ∧ isBlank t.text = false :=
  have hk : ∀ o ∈ [Op.add (.str "  a "), .update (.num 1) (.obj [("text", .str " b ")]),
      .clear], o.keepsText := by
    intro o ho
    simp only [List.mem_cons, List.mem_singleton, List.not_mem_nil, or_false] at ho
    rcases ho with rfl | rfl | rfl
    · trivial
    · intro x hx
      have hl : (JsValue.obj [("text", .str " b ")]).lookup "text" = .str " b " := by
        simp [JsValue.lookup, lookupField]
      rw [hl] at hx
      cases hx
      decide
    · trivial
  ⟨hk, reachable_text_not_blank _ hk⟩

/-! ## Ids over time -/

theorem nextId_le_opStep (s : Store) (o : Op) : s.nextId ≤ (o.step s).nextId := by
  cases o with
  | add text =>
    rcases addTodo_cases text s with e | ⟨t, _, _, e⟩
    · simp [Op.step, e]
    · simp [Op.step, e]
  | update id updates =>
    simp [Op.step, (updateTodo_ids id updates s).2]
  | clear => simp [Op.step, clearCompleted]

theorem nextId_le_runOps (ops : List Op) (s : Store) : s.nextId ≤ (runOps ops s).nextId := by
  induction ops generalizing s with
  | nil => exact Nat.le_refl _
  | cons o rest ih =>
    simp only [runOps, List.foldl_cons]
    exact Nat.le_trans (nextId_le_opStep s o) (ih (o.step s))

theorem runOps_append (ops more : List Op) (s : Store) :
    runOps (ops ++ more) s = runOps more (runOps ops s) := by
  simp [runOps, List.foldl_append]

theorem addResults_ge (ops : List Op) (s : Store) :
    ∀ t ∈ addResults ops s, s.nextId ≤ t.id ∧ t.done = false := by
  induction ops generalizing s with
  | nil => simp [addResults]
  | cons o rest ih =>
    have hstep := nextId_le_opStep s o
    cases o with
    | add text =>
      rcases addTodo_cases text s with e | ⟨x, _, _, e⟩
      · intro t ht
        simp only [addResults, e] at ht
        have := ih _ t ht
        exact ⟨Nat.le_trans hstep this.1, this.2⟩
      · intro t ht
        simp only [addResults, e, List.mem_cons] at ht
        rcases ht with rfl | ht
        · exact ⟨Nat.le_refl _, rfl⟩
        · have := ih _ t ht
          exact ⟨Nat.le_trans hstep this.1, this.2⟩
    | update id updates =>
      intro t ht
      simp only [addResults] at ht
      have := ih _ t ht
      exact ⟨Nat.le_trans hstep this.1, this.2⟩
    | clear =>
      intro t ht
      simp only [addResults] at ht
      have := ih _ t ht
      exact ⟨Nat.le_trans hstep this.1, this.2⟩

theorem addResults_increasing (ops : List Op) (s : Store) :
    (addResults ops s).Pairwise (fun a b => a.id < b.id) := by
  induction ops generalizing s with
  | nil => simp [addResults]
  | cons o rest ih =>
    cases o with
    | add text =>
      rcases addTodo_cases text s with e | ⟨x, _, _, e⟩
      · simp only [addResults, e]
        exact ih _
      · simp only [addResults, e, List.pairwise_cons]
        refine ⟨?_, ih _⟩
        intro t ht
        have h1 := (addResults_ge rest _ t ht).1
        simp only [Op.step, e] at h1
        show s.nextId < t.id
        omega
    | update id updates => simp only [addResults]; exact ih _
    | clear => simp only [addResults]; exact ih _

theorem addResults_lt (ops : List Op) (s : Store) :
    ∀ t ∈ addResults ops s, t.id < (runOps ops s).nextId := by
  induction ops generalizing s with
  | nil => simp [addResults]
  | cons o rest ih =>
    have hrun : runOps (o :: rest) s = runOps rest (o.step s) := by
      simp [runOps]
    rw [hrun]
    cases o with
    | add text =>
      rcases addTodo_cases text s with e | ⟨x, rfl, _, e⟩
      · intro t ht
        simp only [addResults, e] at ht
        exact ih _ t ht
      · intro t ht
        simp only [addResults, e, List.mem_cons] at ht
        rcases ht with rfl | ht
        · have h1 := nextId_le_runOps rest (Op.step s (.add (.str x)))
          have h2 : (Op.step s (.add (.str x))).nextId = s.nextId + 1 := by
            simp [Op.step, e]
          show s.nextId < _
          omega
        · exact ih _ t ht
    | update id updates =>
      intro t ht
      simp only [addResults] at ht
      exact ih _ t ht
    | clear =>
      intro t ht
      simp only [addResults] at ht
      exact ih _ t ht

/-- C8: along every sequence of `addTodo`, `updateTodo` and `clearCompleted`
calls run from the initial store (which is also the store after
`resetTodos`), the counter never decreases, every todo returned by a
successful `addTodo` has `done = false`, and its id is strictly greater than
the id returned by every earlier successful `addTodo`, whether or not that
todo is still in the collection. -/
theorem ids_never_reused (s0 : Store) (ops more : List Op) :
    resetTodos s0 = Store.initial ∧
    (runOps ops Store.initial).nextId ≤ (runOps (ops ++ more) Store.initial).nextId ∧
    (addResults ops Store.initial).Pairwise (fun a b => a.id < b.id) ∧
    (∀ t ∈ addResults ops Store.initial, t.done = false) ∧
    (∀ t ∈ addResults ops Store.initial, t.id < (runOps ops Store.initial).nextId) := by
  refine ⟨rfl, ?_, addResults_increasing _ _, fun t ht => (addResults_ge _ _ t ht).2, ?_⟩
  · rw [runOps_append]; exact nextId_le_runOps _ _
  · exact addResults_lt _ _

/-! ## Handlers -/

theorem readErrorMessage_ne_empty (v : JsValue) (key : String) :
    readErrorMessage v key ≠ "" := by
  intro h
  have := congrArg String.length h
  simp [readErrorMessage, String.length_append] at this
  exact absurd this.1.1.1.1 (by decide)

/-- C9 (failing input): `PUT /api/todos/1` on a store that holds todo 1, with
`req.body` undefined, ends with an uncaught `TypeError` and no response,
where the claim requires status 200 or 404; the read `updates.text` in
`updateTodo` is unguarded and the handler has no `try`.  The sibling handler
of `POST /api/todos` answers the same `req.body` with status 400 and a
non-empty error, because its read of `req.body.text` is inside `try`. -/
theorem putTodo_undefined_body_throws :
    putTodo "1" .undefined ⟨[⟨1, "a", false⟩], 2⟩ =
      (.error (.typeError "Cannot read properties of undefined (reading text)"),
        ⟨[⟨1, "a", false⟩], 2⟩) ∧
    (¬ ∃ r, (putTodo "1" .undefined ⟨[⟨1, "a", false⟩], 2⟩).1 = .ok r) ∧
    postTodos .undefined ⟨[⟨1, "a", false⟩], 2⟩ =
      (.ok ⟨400, .error "Cannot read properties of undefined (reading text)"⟩,
        ⟨[⟨1, "a", false⟩], 2⟩) ∧
    "Cannot read properties of undefined (reading text)" ≠ "" := by
  have h : putTodo "1" .undefined ⟨[⟨1, "a", false⟩], 2⟩ =
      (.error (.typeError "Cannot read properties of undefined (reading text)"),
        ⟨[⟨1, "a", false⟩], 2⟩) := by rfl
  refine ⟨h, ?_, by rfl, by decide⟩
  rintro ⟨r, hr⟩
  rw [h] at hr
  cases hr

/-- The POST handler answers every `req.body`, with 201 and the todo or with
400 and a non-empty error. -/
theorem postTodos_answers (s : Store) (reqBody : JsValue) :
    ∃ r, (postTodos reqBody s).1 = .ok r ∧
      ((r.status = 201 ∧ ∃ t, r.body = .todo t) ∨
       (r.status = 400 ∧ ∃ msg, r.body = .error msg ∧ msg ≠ "")) := by
  by_cases hn : reqBody.nullish = true
  · refine ⟨⟨400, .error (readErrorMessage reqBody "text")⟩, ?_, Or.inr ⟨rfl, _, rfl, ?_⟩⟩
    · simp [postTodos, JsValue.getProp, hn, JsError.message]
    · exact readErrorMessage_ne_empty _ _
  · rcases addTodo_cases (reqBody.lookup "text") s with e | ⟨x, _, _, e⟩
    · refine ⟨⟨400, .error "Text is required"⟩, ?_, Or.inr ⟨rfl, _, rfl, by decide⟩⟩
      simp [postTodos, JsValue.getProp, hn, e, textRequired, JsError.message]
    · refine ⟨⟨201, .todo ⟨s.nextId, jsTrim x, false⟩⟩, ?_, Or.inl ⟨rfl, _, rfl⟩⟩
      simp [postTodos, JsValue.getProp, hn, e]

/-- The PUT handler answers every path segment and every `req.body` that is
an actual value (an object, also one without `text` or `done` or with fields
of the wrong type, an array, a primitive), with 200 and the todo or with 404
and `{error: 'Todo not found'}`. -/
theorem putTodo_answers_defined_body (s : Store) (idParam : String) (reqBody : JsValue)
    (hb : reqBody ≠ .undefined ∧ reqBody ≠ .null) :
    ∃ r, (putTodo idParam reqBody s).1 = .ok r ∧
      ((r.status = 200 ∧ ∃ t, r.body = .todo t) ∨ r = ⟨404, .error "Todo not found"⟩) := by
  have hn : reqBody.nullish = false := by
    cases reqBody <;> simp [JsValue.nullish] at hb ⊢
  cases hfind : s.todos.find? (idMatches (parseInt10 idParam)) with
  | none =>
    exact ⟨⟨404, .error "Todo not found"⟩, by simp [putTodo, updateTodo, hfind], Or.inr rfl⟩
  | some t0 =>
    obtain ⟨pre, post, hs, hpre, h0⟩ := find_split _ _ _ hfind
    have e := updateTodo_split s (parseInt10 idParam) reqBody pre post t0 hn hs hpre h0
    exact ⟨⟨200, .todo (updatedTodo (reqBody.lookup "text") (reqBody.lookup "done") t0)⟩,
      by simp [putTodo, e], Or.inl ⟨rfl, _, rfl⟩⟩

end Shipmate
